import Mathlib

/-!
Verification of `sqlmesh/core/model/meta.py`: model metadata validation,
cron granularity inference (`interval_unit` / `normalized_cron`) and the
cron navigation API (`cron_next` / `cron_prev` / `cron_floor`).

Time-like values are modelled as natural numbers of seconds since the Unix
epoch; cron firing instants lie on whole minutes.  The external `croniter`
library is modelled by an executable five-field cron evaluator
(`CronSched`), per the spec's glossary: a cron expression is a five-field
schedule (minute, hour, day-of-month, month, day-of-week) describing
recurring firing instants.
-/

set_option maxRecDepth 1000000

deriving instance DecidableEq for Except

namespace SqlMesh

/-! ## Character-level helpers (Python `str.split`, `int(...)`) -/

/-- Split a character list on a separator character, keeping empty chunks
(the model of Python `str.split(sep)`). -/
def splitOnChar (sep : Char) : List Char → List (List Char)
  | [] => [[]]
  | c :: cs =>
    let rest := splitOnChar sep cs
    if c = sep then [] :: rest
    else
      match rest with
      | [] => [[c]]
      | w :: ws => (c :: w) :: ws

/-- The numeric value of a decimal digit character, if it is one. -/
def digitVal? (c : Char) : Option Nat :=
  if c.isDigit then some (c.toNat - 48) else none

/-- Accumulate decimal digits into a number; fails on a non-digit. -/
def digitsAux : List Char → Nat → Option Nat
  | [], acc => some acc
  | c :: cs, acc =>
    match digitVal? c with
    | some d => digitsAux cs (acc * 10 + d)
    | none => none

/-- Parse a non-empty all-digit character list as a natural number. -/
def digitsToNat? : List Char → Option Nat
  | [] => none
  | c :: cs => digitsAux (c :: cs) 0

/-! ## Cron expressions: fields, parsing, matching -/

/-- One field of a five-field cron expression: a wildcard, or an explicit
list of admissible values. -/
inductive CronField where
  | star : CronField
  | vals (vs : List Nat) : CronField
deriving Repr, DecidableEq

/-- Does a concrete component value satisfy a cron field? -/
def fieldMatch : CronField → Nat → Bool
  | .star, _ => true
  | .vals vs, n => vs.contains n

/-- All values from `lo` to `hi` inclusive. -/
def rangeVals (lo hi : Nat) : List Nat :=
  (List.range (hi + 1)).filter (fun v => lo ≤ v)

/-- Parse one comma-item of a cron field: a single value `n` or a range
`a-b`, bounds-checked against `lo..hi`. -/
def parseItem (lo hi : Nat) (it : List Char) : Option (List Nat) :=
  match splitOnChar '-' it with
  | [a] => do
    let n ← digitsToNat? a
    if lo ≤ n ∧ n ≤ hi then pure [n] else none
  | [a, b] => do
    let x ← digitsToNat? a
    let y ← digitsToNat? b
    if lo ≤ x ∧ x ≤ y ∧ y ≤ hi then pure ((rangeVals x y)) else none
  | _ => none

/-- Parse a whole cron field over the value range `lo..hi`: `*`, `*/k`, or
a comma-separated list of values and ranges. -/
def parseFieldChars (lo hi : Nat) (cs : List Char) : Option CronField :=
  if cs = ['*'] then some .star
  else
    match cs with
    | '*' :: '/' :: rest => do
      let k ← digitsToNat? rest
      if k = 0 then none
      else pure (.vals ((rangeVals lo hi).filter (fun v => (v - lo) % k = 0)))
    | _ => do
      let groups ← (splitOnChar ',' cs).mapM (parseItem lo hi)
      pure (.vals groups.flatten)

/-- A parsed five-field cron schedule. -/
structure CronSched where
  minute : CronField
  hour : CronField
  dom : CronField
  month : CronField
  dow : CronField
deriving Repr, DecidableEq

/-- Map day-of-week value 7 (an accepted alias for Sunday) to 0. -/
def normalizeDow : CronField → CronField
  | .star => .star
  | .vals vs => .vals (vs.map (· % 7))

/-- Assemble a schedule from the five whitespace-separated fields. -/
def parseCronFields : List (List Char) → Option CronSched
  | [mi, h, dm, mo, dw] => do
    let fMinute ← parseFieldChars 0 59 mi
    let fHour ← parseFieldChars 0 23 h
    let fDom ← parseFieldChars 1 31 dm
    let fMonth ← parseFieldChars 1 12 mo
    let fDow ← parseFieldChars 0 7 dw
    pure ⟨fMinute, fHour, fDom, fMonth, normalizeDow fDow⟩
  | _ => none

/-- Expand the `@`-aliases used by the code (`cron` defaults to `@daily`). -/
def cronAlias (cs : List Char) : List Char :=
  if cs = "@daily".toList ∨ cs = "@midnight".toList then "0 0 * * *".toList
  else if cs = "@hourly".toList then "0 * * * *".toList
  else cs

/-- Modelled from the spec: `croniter`'s cron-expression parsing (the
library is external to the repository).  A cron expression is a five-field
schedule specification (minute, hour, day-of-month, month, day-of-week);
an unparseable string yields `none`. -/
def parseCron (s : String) : Option CronSched :=
  parseCronFields ((splitOnChar ' ' (cronAlias s.toList)).filter (· ≠ []))

/-- Gregorian civil date from a count of days since 1970-01-01,
as `(year, month, day)`. -/
def civilFromDays (days : Nat) : Nat × Nat × Nat :=
  let z := days + 719468
  let era := z / 146097
  let doe := z % 146097
  let yoe := (doe - doe / 1460 + doe / 36524 - doe / 146096) / 365
  let y := yoe + era * 400
  let doy := doe - (365 * yoe + yoe / 4 - yoe / 100)
  let mp := (5 * doy + 2) / 153
  let d := doy - (153 * mp + 2) / 5 + 1
  let m := if mp < 10 then mp + 3 else mp - 9
  (if m ≤ 2 then y + 1 else y, m, d)

/-- Month (1..12) of a day count since the epoch. -/
def monthOfDay (day : Nat) : Nat := (civilFromDays day).2.1

/-- Day of month (1..31) of a day count since the epoch. -/
def domOfDay (day : Nat) : Nat := (civilFromDays day).2.2

/-- Day of week (0 = Sunday) of a day count since the epoch
(1970-01-01 was a Thursday). -/
def dowOfDay (day : Nat) : Nat := (day + 4) % 7

/-- Standard cron semantics for the two date fields: when both day-of-month
and day-of-week are restricted, a day passes if either matches. -/
def domDowOk (s : CronSched) (day : Nat) : Bool :=
  match s.dom, s.dow with
  | .star, .star => true
  | .star, f => fieldMatch f (dowOfDay day)
  | f, .star => fieldMatch f (domOfDay day)
  | f, g => fieldMatch f (domOfDay day) || fieldMatch g (dowOfDay day)

/-- Does the schedule fire at a given minute count since the epoch? -/
def CronSched.matchesMin (s : CronSched) (mt : Nat) : Bool :=
  fieldMatch s.minute (mt % 60) &&
  fieldMatch s.hour (mt / 60 % 24) &&
  fieldMatch s.month (monthOfDay (mt / 1440)) &&
  domDowOk s (mt / 1440)

/-- Search bound for firing-instant searches, in minutes (about 19 years),
modelling `croniter`'s give-up horizon. -/
def cronFuel : Nat := 10000000

/-- Least matching minute `≥ m`, searching at most `fuel` steps. -/
def searchNextFrom (s : CronSched) (m : Nat) : Nat → Option Nat
  | 0 => none
  | fuel + 1 => if s.matchesMin m then some m else searchNextFrom s (m + 1) fuel

/-- Greatest matching minute `≤ m`, searching at most `fuel` steps and not
below minute 0. -/
def searchPrevFrom (s : CronSched) (m : Nat) : Nat → Option Nat
  | 0 => none
  | fuel + 1 =>
    if s.matchesMin m then some m
    else if m = 0 then none
    else searchPrevFrom s (m - 1) fuel

/-- Modelled from the spec: `croniter.get_next` — the next firing instant
strictly after time `t` (seconds), as a second count on a whole minute. -/
def getNext (s : CronSched) (t : Nat) : Option Nat :=
  (searchNextFrom s (t / 60 + 1) cronFuel).map (60 * ·)

/-- Modelled from the spec: `croniter.get_prev` — the latest firing instant
strictly before time `t` (seconds); `none` when no such instant exists in
the model's domain. -/
def getPrev (s : CronSched) (t : Nat) : Option Nat :=
  if t = 0 then none else (searchPrevFrom s ((t - 1) / 60) cronFuel).map (60 * ·)

/-! ## Errors

The code raises two distinct error species: `ConfigError` (sqlmesh's
invalid-configuration error, raised explicitly by validators) and plain
`ValueError` (raised by `int`/`enum`/`min` and by the root validator, and
turned by pydantic into a validation failure). -/

/-- An error raised by the metadata code: either sqlmesh's
invalid-configuration error or an uncategorized `ValueError`-style runtime
error. -/
inductive MetaError where
  | configError (msg : String) : MetaError
  | valueError (msg : String) : MetaError
deriving Repr, DecidableEq

/-! ## Model kinds (`sqlmesh/core/model/kind.py`, not under `src/`) -/

/-- Modelled from the spec: the closed enumeration of recognized kind
names (`ModelKindName` in kind.py, which is not under src/).  Exactly two
names carry dedicated variants with extra structured fields; all others
construct the generic variant carrying just the name. -/
inductive ModelKindName where
  | INCREMENTAL_BY_TIME_RANGE : ModelKindName
  | INCREMENTAL_BY_UNIQUE_KEY : ModelKindName
  | FULL : ModelKindName
  | SNAPSHOT : ModelKindName
  | VIEW : ModelKindName
  | EMBEDDED : ModelKindName
deriving Repr, DecidableEq

/-- The string value of each kind name (`ModelKindName` is a `str` enum
whose values are the upper-case names, as in the spec's examples). -/
def ModelKindName.value : ModelKindName → String
  | .INCREMENTAL_BY_TIME_RANGE => "INCREMENTAL_BY_TIME_RANGE"
  | .INCREMENTAL_BY_UNIQUE_KEY => "INCREMENTAL_BY_UNIQUE_KEY"
  | .FULL => "FULL"
  | .SNAPSHOT => "SNAPSHOT"
  | .VIEW => "VIEW"
  | .EMBEDDED => "EMBEDDED"

/-- Membership lookup in the closed enumeration, the model of Python's
`ModelKindName(name)` call (which raises `ValueError` outside it). -/
def ModelKindName.ofValue (s : String) : Option ModelKindName :=
  if s = "INCREMENTAL_BY_TIME_RANGE" then some .INCREMENTAL_BY_TIME_RANGE
  else if s = "INCREMENTAL_BY_UNIQUE_KEY" then some .INCREMENTAL_BY_UNIQUE_KEY
  else if s = "FULL" then some .FULL
  else if s = "SNAPSHOT" then some .SNAPSHOT
  else if s = "VIEW" then some .VIEW
  else if s = "EMBEDDED" then some .EMBEDDED
  else none

/-- The message of the `ValueError` raised by Python's `Enum` lookup on a
value outside the enumeration. -/
def enumErrorMsg (s : String) : String :=
  "'" ++ s ++ "' is not a valid ModelKindName"

/-- Modelled from the spec: the time-column specification carried by the
incremental-by-time-range kind (kind.py, not under src/). -/
structure TimeColumn where
  column : String
  format : Option String := none
deriving Repr, DecidableEq

/-- Modelled from the spec: the closed polymorphic set of kind variants
(kind.py, not under src/): incremental-by-time-range carries an optional
time-column spec, incremental-by-unique-key is the second dedicated
variant, and every other recognized name yields the generic variant
carrying just the name. -/
inductive ModelKind where
  | incrementalByTimeRange (time_column : Option TimeColumn) : ModelKind
  | incrementalByUniqueKey : ModelKind
  | generic (name : ModelKindName) : ModelKind
deriving Repr, DecidableEq

/-- Modelled from the spec: each kind variant's "is materialized"
capability flag; the view and embedded kinds produce no persisted output
(the spec's example non-materialized kind is `VIEW`), every other variant
is materialized. -/
def ModelKind.is_materialized : ModelKind → Bool
  | .incrementalByTimeRange _ => true
  | .incrementalByUniqueKey => true
  | .generic n =>
    match n with
    | .VIEW => false
    | .EMBEDDED => false
    | _ => true

/-- Modelled from the spec: the textual form of a kind interpolated into
the root validator's `f"partitioned_by field cannot be set for {kind}
models"` message, which names the kind. -/
def kindStr : ModelKind → String
  | .incrementalByTimeRange _ => "INCREMENTAL_BY_TIME_RANGE"
  | .incrementalByUniqueKey => "INCREMENTAL_BY_UNIQUE_KEY"
  | .generic n => n.value

/-! ## Raw inputs to the validators

Each validator's admissible Python input shapes are modelled by a small
inductive of raw values; AST expressions (`sqlglot`/`sqlmesh.core.dialect`
nodes) are represented by the textual data the validators extract from
them. -/

/-- The raw shapes accepted for the `kind` field (meta.py lines 66-96): an
already-typed kind variant, a structured `d.ModelKind` AST node (head name
plus named child properties, each property modelled by its textual value),
a mapping, or a bare expression / string. -/
inductive RawKind where
  | typed (k : ModelKind) : RawKind
  | astNode (head : String) (props : List (String × String)) : RawKind
  | mapping (entries : List (String × String)) : RawKind
  | expr (name : String) : RawKind
  | str (s : String) : RawKind

/-- Modelled from the spec: construction of `IncrementalByTimeRange` from
a name-to-value property mapping (kind.py, not under src/); a
`time_column` property gives the time column. -/
def mkIncrementalByTimeRange (props : List (String × String)) : ModelKind :=
  .incrementalByTimeRange ((props.lookup "time_column").map fun c => ⟨c, none⟩)

/-- Modelled from the spec: construction of `IncrementalByUniqueKey` from
a property mapping (kind.py, not under src/). -/
def mkIncrementalByUniqueKey (_props : List (String × String)) : ModelKind :=
  .incrementalByUniqueKey

/-- Modelled from the spec: the kind constructed from a mapping with no
`name` entry; the spec calls it "a default (non-materialized) kind". -/
def defaultGenericKindName : ModelKindName := .VIEW

/-- The kind resolver (meta.py lines 66-96).  Shape dispatch in source
order; only the bare-expression/string shape raises `ConfigError`
explicitly, while an unknown name in the structured-AST or mapping shape
surfaces as the enum lookup's `ValueError`. -/
def _model_kind_validator : RawKind → Except MetaError ModelKind
  | .typed k => .ok k
  | .astNode head props =>
    if head = ModelKindName.INCREMENTAL_BY_TIME_RANGE.value then
      .ok (mkIncrementalByTimeRange props)
    else if head = ModelKindName.INCREMENTAL_BY_UNIQUE_KEY.value then
      .ok (mkIncrementalByUniqueKey props)
    else
      match ModelKindName.ofValue head with
      | some n => .ok (.generic n)
      | none => .error (.valueError (enumErrorMsg head))
  | .mapping entries =>
    if entries.lookup "name" = some ModelKindName.INCREMENTAL_BY_TIME_RANGE.value then
      .ok (mkIncrementalByTimeRange entries)
    else if entries.lookup "name" = some ModelKindName.INCREMENTAL_BY_UNIQUE_KEY.value then
      .ok (mkIncrementalByUniqueKey entries)
    else
      match entries.lookup "name" with
      | none => .ok (.generic defaultGenericKindName)
      | some s =>
        match ModelKindName.ofValue s with
        | some n => .ok (.generic n)
        | none => .error (.valueError (enumErrorMsg s))
  | .expr name =>
    match ModelKindName.ofValue name with
    | some n => .ok (.generic n)
    | none => .error (.configError ("Invalid model kind '" ++ name ++ "'"))
  | .str s =>
    match ModelKindName.ofValue s with
    | some n => .ok (.generic n)
    | none => .error (.configError ("Invalid model kind '" ++ s ++ "'"))

/-- A raw value for string-typed fields: an AST expression (contributing
its textual name) or a primitive that is stringified. -/
inductive RawStr where
  | expr (name : String) : RawStr
  | str (s : String) : RawStr
  | int (n : Int) : RawStr

/-- The string coercer (meta.py lines 98-102): an expression's textual
name, otherwise `str(v)`. -/
def _string_validator : RawStr → String
  | .expr n => n
  | .str s => s
  | .int n => toString n

/-- The cron validator (meta.py lines 104-112): coerce to a string; if the
string is truthy (non-empty), it must parse as a cron expression, else a
`ConfigError` naming the text is raised.  An empty string skips the parse
check entirely. -/
def _cron_validator (v : RawStr) : Except MetaError String :=
  let cron := _string_validator v
  if cron = "" then .ok cron
  else
    match parseCron cron with
    | some _ => .ok cron
    | none => .error (.configError ("Invalid cron expression '" ++ cron ++ "'"))

/-- Modelled from the spec: `to_datetime` (sqlmesh.utils.date, not under
src/) decides parseability of a time-like value as a point in time; the
model accepts a decimal epoch literal or a `YYYY-MM-DD` date. -/
def to_datetime? (s : String) : Option Nat :=
  match digitsToNat? s.toList with
  | some n => some n
  | none =>
    match (splitOnChar '-' s.toList).mapM digitsToNat? with
    | some [y, mo, d] =>
      if 1 ≤ mo ∧ mo ≤ 12 ∧ 1 ≤ d ∧ d ≤ 31 then some (y * 372 + mo * 31 + d) else none
    | _ => none

/-- The `start` validator (meta.py lines 136-142): take an expression's
textual name, then require parseability as a point in time. -/
def _date_validator (v : RawStr) : Except MetaError String :=
  let s := _string_validator v
  match to_datetime? s with
  | some _ => .ok s
  | none => .error (.configError ("'" ++ s ++ "' not a valid date time"))

/-- A raw value for the integer `batch_size` field: a plain integer, or an
AST expression whose textual name reads as the integer. -/
inductive RawInt where
  | plain (n : Int) : RawInt
  | expr (n : Int) : RawInt

/-- The integer validator (meta.py lines 144-154): unwrap either input
form to its integer, then reject non-positive values with a `ConfigError`. -/
def _int_validator (v : RawInt) : Except MetaError Int :=
  let batch_size := match v with | .plain n => n | .expr n => n
  if batch_size ≤ 0 then
    .error (.configError
      ("Invalid batch size " ++ toString batch_size ++ ". The value should be greater than 0"))
  else .ok batch_size

/-- A raw value for the `partitioned_by` field: an `exp.Tuple` (each
element contributing its textual name), a single expression, or a plain
list of strings. -/
inductive RawPartitions where
  | tuple (names : List String) : RawPartitions
  | expr (name : String) : RawPartitions
  | list (names : List String) : RawPartitions

/-- The partition-list coercer (meta.py lines 58-64). -/
def _value_or_tuple_validator : RawPartitions → List String
  | .tuple ns => ns
  | .expr n => [n]
  | .list ns => ns

/-- Modelled from the spec: `exp.table_name` (sqlglot, external) maps an
element to a normalized fully-qualified table-name string; modelled as the
identity on the element's text. -/
def table_name (s : String) : String := s

/-- An element of a raw `depends_on` collection: a string literal (passes
verbatim) or any other expression (resolved via its SQL text). -/
inductive RawDepItem where
  | strLit (s : String) : RawDepItem
  | other (sqlText : String) : RawDepItem

/-- A raw value for the `depends_on` field. -/
inductive RawDeps where
  | collection (items : List RawDepItem) : RawDeps
  | expr (sqlText : String) : RawDeps
  | plain (tables : List String) : RawDeps

/-- Modelled from the spec: `unique` (sqlmesh.utils, not under src/)
de-duplicates a sequence keeping the first occurrence of each element:
duplicates removed, insertion order preserved. -/
def uniqueAux (seen : List String) : List String → List String
  | [] => []
  | x :: xs => if x ∈ seen then uniqueAux seen xs else x :: uniqueAux (x :: seen) xs

/-- First-occurrence de-duplication (`sqlmesh.utils.unique`). -/
def unique (l : List String) : List String := uniqueAux [] l

/-- The `depends_on` coercer (meta.py lines 125-134); the Python `set` is
modelled as a duplicate-free list. -/
def _depends_on_validator : RawDeps → List String
  | .collection items =>
    unique (items.map fun it =>
      match it with
      | .strLit s => table_name s
      | .other q => table_name q)
  | .expr q => [table_name q]
  | .plain ts => ts

/-- A raw value for the `columns` field: an `exp.Schema` node (column
name/type pairs) or a plain mapping with textual type descriptors. -/
inductive RawColumns where
  | schema (cols : List (String × String)) : RawColumns
  | dict (entries : List (String × String)) : RawColumns

/-- The columns coercer (meta.py lines 114-123); `exp.DataType` values are
modelled by their SQL text (`maybe_parse` modelled as the identity on it). -/
def _columns_validator : RawColumns → List (String × String)
  | .schema cols => cols
  | .dict entries => entries

/-! ## The metadata record and its construction -/

/-- The validated, immutable metadata record (`ModelMeta` in meta.py,
lines 37-56), with the same field defaults. -/
structure ModelMeta where
  name : String
  kind : ModelKind := .incrementalByTimeRange none
  dialect : String := ""
  cron : String := "@daily"
  owner : Option String := none
  description : Option String := none
  start : Option String := none
  batch_size : Option Int := none
  storage_format : Option String := none
  partitioned_by_ : Option (List String) := none
  depends_on_ : Option (List String) := none
  columns_to_types_ : Option (List (String × String)) := none
deriving Repr, DecidableEq

/-- The raw field values handed to construction; `none` means the field
was absent, so its default applies and its validator does not run. -/
structure RawMeta where
  name : String
  kind : Option RawKind := none
  dialect : Option RawStr := none
  cron : Option RawStr := none
  owner : Option RawStr := none
  description : Option RawStr := none
  start : Option RawStr := none
  batch_size : Option RawInt := none
  storage_format : Option RawStr := none
  partitioned_by : Option RawPartitions := none
  depends_on : Option RawDeps := none
  columns : Option RawColumns := none

/-- The cross-field root validator (meta.py lines 156-164): a truthy
(non-empty) explicit partition list on a non-materialized kind raises a
`ValueError` naming the kind. -/
def _kind_validator (m : ModelMeta) : Except MetaError ModelMeta :=
  if m.kind.is_materialized then .ok m
  else
    match m.partitioned_by_ with
    | some (_ :: _) =>
      .error (.valueError ("partitioned_by field cannot be set for " ++ kindStr m.kind ++ " models"))
    | _ => .ok m

/-- Modelled from the spec: the construction surface raises a single error
kind — Invalid Configuration (spec section 7) — so a `ValueError` raised
inside a validator (which pydantic turns into a validation failure)
surfaces as a configuration error carrying the same message; an explicitly
raised configuration error passes through unchanged. -/
def surfaceError : MetaError → MetaError
  | .valueError msg => .configError msg
  | .configError msg => .configError msg

/-- The `kind` field value: the declared default when absent, else the
kind resolver's result. -/
def kindField (raw : RawMeta) : Except MetaError ModelKind :=
  match raw.kind with
  | none => .ok (ModelKind.incrementalByTimeRange none)
  | some v => _model_kind_validator v

/-- The `cron` field value: the declared default `@daily` when absent,
else the cron validator's result. -/
def cronField (raw : RawMeta) : Except MetaError String :=
  match raw.cron with
  | none => .ok "@daily"
  | some v => _cron_validator v

/-- The `start` field value: absent stays absent, else the date validator
runs. -/
def startField (raw : RawMeta) : Except MetaError (Option String) :=
  match raw.start with
  | none => .ok none
  | some v => (_date_validator v).map some

/-- The `batch_size` field value: absent stays absent, else the integer
validator runs. -/
def batchField (raw : RawMeta) : Except MetaError (Option Int) :=
  match raw.batch_size with
  | none => .ok none
  | some v => (_int_validator v).map some

/-- The field-validation pass of construction, in field declaration order
(the fallible validators are kind, cron, start and batch size; the rest
are total coercions), followed by the cross-field root validator. -/
def buildRaw (raw : RawMeta) : Except MetaError ModelMeta :=
  kindField raw >>= fun kind =>
  cronField raw >>= fun cron =>
  startField raw >>= fun start =>
  batchField raw >>= fun batch_size =>
  _kind_validator
    { name := raw.name
      kind := kind
      dialect := (raw.dialect.map _string_validator).getD ""
      cron := cron
      owner := raw.owner.map _string_validator
      description := raw.description.map _string_validator
      start := start
      batch_size := batch_size
      storage_format := raw.storage_format.map _string_validator
      partitioned_by_ := raw.partitioned_by.map _value_or_tuple_validator
      depends_on_ := raw.depends_on.map _depends_on_validator
      columns_to_types_ := raw.columns.map _columns_validator }

/-- Atomic construction of a `ModelMeta` (the pydantic `build` flow):
run each supplied field's coercing validator, apply defaults for absent
fields, then run the cross-field root validator; the first failure aborts
construction and surfaces as a configuration error. -/
def ModelMeta.build (raw : RawMeta) : Except MetaError ModelMeta :=
  match buildRaw raw with
  | .ok m => .ok m
  | .error e => .error (surfaceError e)

/-- The `time_column` property (meta.py lines 166-170). -/
def ModelMeta.time_column (m : ModelMeta) : Option TimeColumn :=
  match m.kind with
  | .incrementalByTimeRange tc => tc
  | _ => none

/-- The `[self.time_column.column] if self.time_column else []` list
inside the derived `partitioned_by` property. -/
def ModelMeta.timeColumnList (m : ModelMeta) : List String :=
  match m.time_column with
  | some tc => [tc.column]
  | none => []

/-- The derived public `partitioned_by` property (meta.py lines 172-175):
the kind's time column, if any, prepended to the explicit list, then
de-duplicated keeping first occurrences. -/
def ModelMeta.partitioned_by (m : ModelMeta) : List String :=
  unique (m.timeColumnList ++ m.partitioned_by_.getD [])

/-! ## Cron inference engine (`interval_unit` / `normalized_cron`)

The engine samples consecutive future firing timestamps anchored at the
engine's own clock ("now"), which the model makes an explicit parameter. -/

/-- The inferred granularity of a model's schedule (meta.py lines 24-34). -/
inductive IntervalUnit where
  | DAY : IntervalUnit
  | HOUR : IntervalUnit
  | MINUTE : IntervalUnit
deriving Repr, DecidableEq

/-- Python's `min` over a list: `none` (a `ValueError`) on an empty one. -/
def minList? : List Nat → Option Nat
  | [] => none
  | x :: xs => some (xs.foldl min x)

/-- The gaps `b - a` between consecutive samples (the code's
`zip(samples, samples[1:])`), in seconds. -/
def consecDiffs (samples : List Nat) : List Nat :=
  (samples.zip samples.tail).map fun ab => ab.2 - ab.1

/-- `sample_size` consecutive firing timestamps of a schedule strictly
after `cur`, each obtained by `get_next` from the previous one. -/
def sampleNexts (s : CronSched) (cur : Nat) : Nat → Option (List Nat)
  | 0 => some []
  | n + 1 => do
    let x ← getNext s cur
    let rest ← sampleNexts s x n
    pure (x :: rest)

/-- `interval_unit` (meta.py lines 177-195): sample `sample_size`
consecutive firing timestamps of `self.cron` from `now`, take the minimum
gap in seconds between consecutive samples, and classify it.  A failing
cron parse or an empty gap list surfaces as an uncategorized
`ValueError`-style error, not a configuration error. -/
def ModelMeta.interval_unit (m : ModelMeta) (now : Nat) (sample_size : Nat := 10) :
    Except MetaError IntervalUnit :=
  match parseCron m.cron with
  | none => .error (.valueError ("bad cron " ++ m.cron))
  | some schedule =>
    match sampleNexts schedule now sample_size with
    | none => .error (.valueError "cron schedule search exhausted")
    | some samples =>
      match minList? (consecDiffs samples) with
      | none => .error (.valueError "min() arg is an empty sequence")
      | some min_interval =>
        if min_interval ≥ 86400 then .ok .DAY
        else if min_interval ≥ 3600 then .ok .HOUR
        else .ok .MINUTE

/-- `normalized_cron` (meta.py lines 197-213): map the inferred unit to
one of the three canonical cron strings; the final branch returns the
empty-string sentinel. -/
def ModelMeta.normalized_cron (m : ModelMeta) (now : Nat) : Except MetaError String := do
  let unit ← m.interval_unit now
  if unit = IntervalUnit.MINUTE then pure "* * * * *"
  else if unit = IntervalUnit.HOUR then pure "0 * * * *"
  else if unit = IntervalUnit.DAY then pure "0 0 * * *"
  else pure ""

/-! ## Cron navigator (`croniter` / `cron_next` / `cron_prev` / `cron_floor`)

The single cached mutable cursor (`self._croniter`) is modelled by
explicit state passing: `NavState` is the cached cursor or `none` before
first use.  `preserve_time_like_kind` is modelled as the identity on the
model's uniform epoch-seconds representation of time-like values. -/

/-- The cached cron cursor: a parsed schedule plus its current position. -/
structure CronCursor where
  sched : CronSched
  current : Nat
deriving Repr, DecidableEq

/-- The navigator's mutable state: the lazily created cached cursor. -/
abbrev NavState := Option CronCursor

/-- The `croniter` method (meta.py lines 215-219): create the cached
cursor from `normalized_cron()` on first use, then re-seed its current
position to the query's timestamp (`set_current`). -/
def ModelMeta.croniter (m : ModelMeta) (now : Nat) (value : Nat) (st : NavState) :
    Except MetaError CronCursor := do
  let cur ← match st with
    | some c => pure c
    | none => do
      let s ← m.normalized_cron now
      match parseCron s with
      | some sched => pure (⟨sched, 0⟩ : CronCursor)
      | none => Except.error (.valueError ("bad cron " ++ s))
  pure { cur with current := value }

/-- `croniter.get_next()` on the cursor: the firing instant strictly after
the current position, advancing the cursor to it. -/
def cursorNext (c : CronCursor) : Except MetaError (Nat × CronCursor) :=
  match getNext c.sched c.current with
  | some r => .ok (r, { c with current := r })
  | none => .error (.valueError "cron search exhausted")

/-- `croniter.get_prev()` on the cursor: the firing instant strictly
before the current position, moving the cursor to it. -/
def cursorPrev (c : CronCursor) : Except MetaError (Nat × CronCursor) :=
  match getPrev c.sched c.current with
  | some r => .ok (r, { c with current := r })
  | none => .error (.valueError "cron search exhausted")

/-- `cron_next` (meta.py lines 221-231): seed the cursor at `value` and
return its next firing time. -/
def ModelMeta.cron_next (m : ModelMeta) (now : Nat) (value : Nat) (st : NavState) :
    Except MetaError Nat × NavState :=
  match m.croniter now value st with
  | .error e => (.error e, st)
  | .ok c =>
    match cursorNext c with
    | .ok (r, c') => (.ok r, some c')
    | .error e => (.error e, some c)

/-- `cron_prev` (meta.py lines 233-243): seed the cursor at `value` and
return its previous firing time. -/
def ModelMeta.cron_prev (m : ModelMeta) (now : Nat) (value : Nat) (st : NavState) :
    Except MetaError Nat × NavState :=
  match m.croniter now value st with
  | .error e => (.error e, st)
  | .ok c =>
    match cursorPrev c with
    | .ok (r, c') => (.ok r, some c')
    | .error e => (.error e, some c)

/-- `cron_floor` (meta.py lines 245-257): compute `cron_next(value)`, seed
the cursor there, and return its previous firing time. -/
def ModelMeta.cron_floor (m : ModelMeta) (now : Nat) (value : Nat) (st : NavState) :
    Except MetaError Nat × NavState :=
  match m.cron_next now value st with
  | (.error e, st') => (.error e, st')
  | (.ok nxt, st') =>
    match m.croniter now nxt st' with
    | .error e => (.error e, st')
    | .ok c =>
      match cursorPrev c with
      | .ok (r, c') => (.ok r, some c')
      | .error e => (.error e, some c)

/-- A firing instant of a schedule: a whole minute that the schedule
matches. -/
def isFiring (s : CronSched) (t : Nat) : Bool :=
  decide (t % 60 = 0) && s.matchesMin (t / 60)

/-- The schedule the navigator caches in its cursor: the parse of the
normalized cron. -/
def ModelMeta.cachedSched (m : ModelMeta) (now : Nat) : Except MetaError CronSched := do
  let s ← m.normalized_cron now
  match parseCron s with
  | some sched => pure sched
  | none => Except.error (.valueError ("bad cron " ++ s))

/-- One of the three Cron Navigator queries. -/
inductive NavQuery where
  | next : NavQuery
  | prev : NavQuery
  | floor : NavQuery

/-- Issue one navigator query against the cached-cursor state. -/
def runQuery (m : ModelMeta) (now : Nat) (q : NavQuery) (t : Nat) (st : NavState) :
    Except MetaError Nat × NavState :=
  match q with
  | .next => m.cron_next now t st
  | .prev => m.cron_prev now t st
  | .floor => m.cron_floor now t st

/-- Issue a sequence of navigator queries, threading the cached cursor. -/
def runSeq (m : ModelMeta) (now : Nat) : List (NavQuery × Nat) → NavState → NavState
  | [], st => st
  | (q, t) :: rest, st => runSeq m now rest (runQuery m now q t st).2

/-! ## Helper lemmas -/

theorem exceptBind_ok {α β : Type} {x : Except MetaError α} {f : α → Except MetaError β} {b : β}
    (h : (x >>= f) = .ok b) : ∃ a, x = .ok a ∧ f a = .ok b := by
  cases x with
  | error e => simp [Bind.bind, Except.bind] at h
  | ok a => exact ⟨a, rfl, by simpa [Bind.bind, Except.bind] using h⟩

theorem uniqueAux_sublist (seen l : List String) : (uniqueAux seen l).Sublist l := by
  induction l generalizing seen with
  | nil => simp [uniqueAux]
  | cons x xs ih =>
    simp only [uniqueAux]
    split
    · exact (ih seen).cons x
    · exact (ih (x :: seen)).cons₂ x

theorem mem_uniqueAux (x : String) (seen l : List String) :
    x ∈ uniqueAux seen l ↔ x ∈ l ∧ x ∉ seen := by
  induction l generalizing seen with
  | nil => simp [uniqueAux]
  | cons y ys ih =>
    simp only [uniqueAux]
    split
    · rename_i hy
      rw [ih seen]
      constructor
      · rintro ⟨hm, hn⟩
        exact ⟨List.mem_cons_of_mem _ hm, hn⟩
      · rintro ⟨hm, hn⟩
        rcases List.mem_cons.mp hm with rfl | hm'
        · exact absurd hy hn
        · exact ⟨hm', hn⟩
    · rename_i hy
      constructor
      · intro hm
        rcases List.mem_cons.mp hm with rfl | hm'
        · exact ⟨List.mem_cons_self _ _, hy⟩
        · rcases (ih (y :: seen)).mp hm' with ⟨h1, h2⟩
          exact ⟨List.mem_cons_of_mem _ h1, fun hc => h2 (List.mem_cons_of_mem _ hc)⟩
      · rintro ⟨hm, hn⟩
        rcases List.mem_cons.mp hm with rfl | hm'
        · exact List.mem_cons_self _ _
        · by_cases hxy : x = y
          · subst hxy; exact List.mem_cons_self _ _
          · exact List.mem_cons_of_mem _ ((ih (y :: seen)).mpr
              ⟨hm', fun hc => (List.mem_cons.mp hc).elim hxy hn⟩)

theorem uniqueAux_nodup (seen l : List String) : (uniqueAux seen l).Nodup := by
  induction l generalizing seen with
  | nil => simp [uniqueAux]
  | cons y ys ih =>
    simp only [uniqueAux]
    split
    · exact ih seen
    · refine List.nodup_cons.mpr ⟨?_, ih (y :: seen)⟩
      intro hmem
      rcases (mem_uniqueAux y (y :: seen) ys).mp hmem with ⟨_, hn⟩
      exact hn (List.mem_cons_self y seen)

theorem unique_nodup (l : List String) : (unique l).Nodup := uniqueAux_nodup [] l

theorem unique_sublist (l : List String) : (unique l).Sublist l := uniqueAux_sublist [] l

theorem mem_unique (x : String) (l : List String) : x ∈ unique l ↔ x ∈ l := by
  rw [unique, mem_uniqueAux]
  simp

theorem kind_validator_ok {m m' : ModelMeta} (h : _kind_validator m = .ok m') :
    m' = m ∧ (m.kind.is_materialized = false → m.partitioned_by_.getD [] = []) := by
  unfold _kind_validator at h
  cases hb : m.kind.is_materialized with
  | true =>
    rw [hb] at h
    simp at h
    exact ⟨h.symm, fun hf => Bool.noConfusion hf⟩
  | false =>
    rw [hb] at h
    simp only [Bool.false_eq_true, if_false] at h
    cases hp : m.partitioned_by_ with
    | none =>
      rw [hp] at h
      simp at h
      exact ⟨h.symm, fun _ => by simp [hp]⟩
    | some l =>
      cases l with
      | nil =>
        rw [hp] at h
        simp at h
        exact ⟨h.symm, fun _ => by simp [hp]⟩
      | cons a as =>
        rw [hp] at h
        simp at h

theorem cron_validator_ok {v : RawStr} {c : String} (h : _cron_validator v = .ok c) :
    c = "" ∨ (parseCron c).isSome = true := by
  simp only [_cron_validator] at h
  split at h
  · rename_i he
    left
    cases h
    exact he
  · rename_i he
    split at h
    · rename_i sched hp
      right
      cases h
      simp [hp]
    · cases h

theorem int_validator_ok {v : RawInt} {b : Int} (h : _int_validator v = .ok b) : 0 < b := by
  cases v with
  | plain n =>
    simp only [_int_validator] at h
    split at h
    · cases h
    · rename_i hle
      cases h
      omega
  | expr n =>
    simp only [_int_validator] at h
    split at h
    · cases h
    · rename_i hle
      cases h
      omega

theorem build_ok_buildRaw {raw : RawMeta} {m : ModelMeta}
    (h : ModelMeta.build raw = .ok m) : buildRaw raw = .ok m := by
  unfold ModelMeta.build at h
  cases hb : buildRaw raw with
  | ok m' => rw [hb] at h; simpa using h
  | error e => rw [hb] at h; simp at h

/-- Everything construction guarantees about a record it returns: the
partitioning invariant, the cron invariant and the batch-size invariant. -/
theorem build_ok_inv {raw : RawMeta} {m : ModelMeta} (h : ModelMeta.build raw = .ok m) :
    (m.kind.is_materialized = false → m.partitioned_by_.getD [] = []) ∧
    (m.cron = "" ∨ (parseCron m.cron).isSome = true) ∧
    (∀ b, m.batch_size = some b → 0 < b) := by
  have h' := build_ok_buildRaw h
  unfold buildRaw at h'
  obtain ⟨kind, hk, h'⟩ := exceptBind_ok h'
  obtain ⟨cron, hc, h'⟩ := exceptBind_ok h'
  obtain ⟨start, hst, h'⟩ := exceptBind_ok h'
  obtain ⟨batch, hbt, h'⟩ := exceptBind_ok h'
  obtain ⟨hm, hinv⟩ := kind_validator_ok h'
  subst hm
  refine ⟨hinv, ?_, ?_⟩
  · show cron = "" ∨ (parseCron cron).isSome = true
    unfold cronField at hc
    cases hrc : raw.cron with
    | none =>
      rw [hrc] at hc
      cases hc
      right
      decide
    | some v =>
      rw [hrc] at hc
      exact cron_validator_ok hc
  · show ∀ b, batch = some b → 0 < b
    intro b hb
    unfold batchField at hbt
    cases hrb : raw.batch_size with
    | none =>
      rw [hrb] at hbt
      cases hbt
      cases hb
    | some v =>
      rw [hrb] at hbt
      dsimp only at hbt
      cases hiv : _int_validator v with
      | error e => rw [hiv] at hbt; simp [Except.map] at hbt
      | ok i =>
        rw [hiv] at hbt
        simp [Except.map] at hbt
        rw [← hbt] at hb
        cases hb
        exact int_validator_ok hiv

/-! ## Claim C1: explicit partitioning requires a materialized kind -/

/-- C1: constructing a `ModelMeta` with an explicit non-empty
`partitioned_by` list while the kind's `is_materialized` flag is false
fails at construction time with a configuration error naming the kind; for
every materialized kind such a construction succeeds; and no constructed
record has a non-materialized kind together with a non-empty explicit
partition list. -/
theorem C1_partitioning_requires_materialized (k : ModelKind) (ps : List String)
    (hps : ps ≠ []) :
    (k.is_materialized = false →
      ModelMeta.build
          { name := "m", kind := some (.typed k), partitioned_by := some (.list ps) } =
        .error (.configError
          ("partitioned_by field cannot be set for " ++ kindStr k ++ " models"))) ∧
    (k.is_materialized = true →
      ModelMeta.build
          { name := "m", kind := some (.typed k), partitioned_by := some (.list ps) } =
        .ok { name := "m", kind := k, partitioned_by_ := some ps }) ∧
    (∀ raw m', ModelMeta.build raw = .ok m' → m'.kind.is_materialized = false →
      m'.partitioned_by_.getD [] = []) := by
  have hbuild : buildRaw
      { name := "m", kind := some (.typed k), partitioned_by := some (.list ps) } =
      _kind_validator { name := "m", kind := k, partitioned_by_ := some ps } := rfl
  refine ⟨?_, ?_, fun raw m' h => (build_ok_inv h).1⟩
  · intro hk
    cases ps with
    | nil => exact absurd rfl hps
    | cons p ps' =>
      unfold ModelMeta.build
      rw [hbuild]
      unfold _kind_validator
      simp [hk, surfaceError]
  · intro hk
    unfold ModelMeta.build
    rw [hbuild]
    unfold _kind_validator
    simp [hk]

/-- C1 witness: the generic VIEW kind is non-materialized and rejects an
explicit partition list; the generic FULL kind is materialized and accepts
one. -/
theorem C1_witness :
    ["ds"] ≠ ([] : List String) ∧
    (ModelKind.generic .VIEW).is_materialized = false ∧
    ModelMeta.build
        { name := "m", kind := some (.typed (.generic .VIEW)),
          partitioned_by := some (.list ["ds"]) } =
      .error (.configError
        ("partitioned_by field cannot be set for " ++ kindStr (.generic .VIEW) ++ " models")) ∧
    (ModelKind.generic .FULL).is_materialized = true ∧
    ModelMeta.build
        { name := "m", kind := some (.typed (.generic .FULL)),
          partitioned_by := some (.list ["ds"]) } =
      .ok { name := "m", kind := .generic .FULL, partitioned_by_ := some ["ds"] } :=
  ⟨by decide, rfl,
    (C1_partitioning_requires_materialized (.generic .VIEW) ["ds"] (by decide)).1 rfl,
    rfl,
    (C1_partitioning_requires_materialized (.generic .FULL) ["ds"] (by decide)).2.1 rfl⟩

/-! ## Claim C2: unrecognized kind names fail in every input shape -/

/-- C2: a kind name outside the closed enumeration fails construction in
each name-bearing input shape, surfacing as a configuration error whose
message contains the offending name text; the fourth shape (an
already-typed kind variant) carries no name to reject and always passes
through unchanged. -/
theorem C2_unknown_kind_name_rejected (s : String) (hs : ModelKindName.ofValue s = none)
    (props entries : List (String × String)) (hent : entries.lookup "name" = some s)
    (nm : String) :
    ModelMeta.build { name := nm, kind := some (.str s) } =
      .error (.configError ("Invalid model kind '" ++ s ++ "'")) ∧
    ModelMeta.build { name := nm, kind := some (.expr s) } =
      .error (.configError ("Invalid model kind '" ++ s ++ "'")) ∧
    ModelMeta.build { name := nm, kind := some (.astNode s props) } =
      .error (.configError ("'" ++ s ++ "' is not a valid ModelKindName")) ∧
    ModelMeta.build { name := nm, kind := some (.mapping entries) } =
      .error (.configError ("'" ++ s ++ "' is not a valid ModelKindName")) ∧
    (∀ k, _model_kind_validator (.typed k) = .ok k) := by
  have h1 : s ≠ "INCREMENTAL_BY_TIME_RANGE" := by
    intro he; rw [he] at hs; exact absurd hs (by decide)
  have h2 : s ≠ "INCREMENTAL_BY_UNIQUE_KEY" := by
    intro he; rw [he] at hs; exact absurd hs (by decide)
  refine ⟨?_, ?_, ?_, ?_, fun k => rfl⟩
  · unfold ModelMeta.build buildRaw kindField
    simp [_model_kind_validator, hs, Bind.bind, Except.bind, surfaceError, enumErrorMsg]
  · unfold ModelMeta.build buildRaw kindField
    simp [_model_kind_validator, hs, Bind.bind, Except.bind, surfaceError, enumErrorMsg]
  · unfold ModelMeta.build buildRaw kindField
    simp [_model_kind_validator, ModelKindName.value, h1, h2, hs, Bind.bind, Except.bind,
      surfaceError, enumErrorMsg]
  · unfold ModelMeta.build buildRaw kindField
    simp [_model_kind_validator, ModelKindName.value, hent, h1, h2, hs, Bind.bind, Except.bind,
      surfaceError, enumErrorMsg]

/-- C2 witness: the name `FOO` is outside the enumeration and is rejected
in all name-bearing shapes with its text in the message. -/
theorem C2_witness :
    ModelKindName.ofValue "FOO" = none ∧
    [("name", "FOO")].lookup "name" = some "FOO" ∧
    ModelMeta.build { name := "m", kind := some (.str "FOO") } =
      .error (.configError ("Invalid model kind '" ++ "FOO" ++ "'")) ∧
    ModelMeta.build { name := "m", kind := some (.astNode "FOO" []) } =
      .error (.configError ("'" ++ "FOO" ++ "' is not a valid ModelKindName")) ∧
    ModelMeta.build { name := "m", kind := some (.mapping [("name", "FOO")]) } =
      .error (.configError ("'" ++ "FOO" ++ "' is not a valid ModelKindName")) := by
  have h := C2_unknown_kind_name_rejected "FOO" (by decide) [] [("name", "FOO")] (by decide) "m"
  exact ⟨by decide, by decide, h.1, h.2.2.1, h.2.2.2.1⟩

/-! ## Claim C3: cron validity at construction (corrected) -/

/-- C3 counterexample: the empty string is falsy, so the cron validator
skips the parse check and construction succeeds with an unparseable cron
field — a constructed `ModelMeta` whose cron does not parse is observable,
contradicting the claim as stated. -/
theorem C3_counterexample_empty_cron :
    ModelMeta.build { name := "m", cron := some (.str "") } =
      .ok { name := "m", cron := "" } ∧
    parseCron "" = none := by
  exact ⟨rfl, rfl⟩

/-- C3 (amended): for cron inputs whose coerced string form is non-empty,
unparseability fails construction with a configuration error naming the
text; hence every constructed record's cron is either the empty string or
a parseable cron expression. -/
theorem C3_cron_validity_amended :
    (∀ v : RawStr, _string_validator v ≠ "" → parseCron (_string_validator v) = none →
      _cron_validator v = .error (.configError
        ("Invalid cron expression '" ++ _string_validator v ++ "'"))) ∧
    (∀ raw m, ModelMeta.build raw = .ok m →
      m.cron = "" ∨ (parseCron m.cron).isSome = true) := by
  constructor
  · intro v hne hp
    simp only [_cron_validator]
    rw [if_neg hne, hp]
  · exact fun raw m h => (build_ok_inv h).2.1

/-- C3 amended-claim witness: `nonsense` is a non-empty unparseable cron
and is rejected; the default build's cron `@daily` parses. -/
theorem C3_witness :
    _string_validator (.str "nonsense") ≠ "" ∧
    parseCron (_string_validator (.str "nonsense")) = none ∧
    _cron_validator (.str "nonsense") = .error (.configError
      ("Invalid cron expression '" ++ _string_validator (.str "nonsense") ++ "'")) ∧
    ModelMeta.build { name := "x" } = .ok { name := "x" } ∧
    ({ name := "x" : ModelMeta }.cron = "" ∨
      (parseCron ({ name := "x" : ModelMeta }.cron)).isSome = true) :=
  ⟨by decide, by decide,
    C3_cron_validity_amended.1 (.str "nonsense") (by decide) (by decide),
    rfl,
    C3_cron_validity_amended.2 { name := "x" } { name := "x" } rfl⟩

/-! ## Claim C7: batch-size coercion and positivity -/

/-- C7: both input forms of `batch_size` coerce to the same integer; a
positive integer is accepted unchanged; a non-positive one fails with the
invalid-value configuration error (at the validator and through
construction, in either form); and a constructed record's batch size, when
present, is strictly positive. -/
theorem C7_batch_size_coercion (n : Int) :
    _int_validator (.expr n) = _int_validator (.plain n) ∧
    (0 < n → _int_validator (.plain n) = .ok n ∧ _int_validator (.expr n) = .ok n) ∧
    (n ≤ 0 →
      _int_validator (.plain n) = .error (.configError
        ("Invalid batch size " ++ toString n ++ ". The value should be greater than 0")) ∧
      ∀ nm, ModelMeta.build { name := nm, batch_size := some (.plain n) } =
          .error (.configError
            ("Invalid batch size " ++ toString n ++ ". The value should be greater than 0")) ∧
        ModelMeta.build { name := nm, batch_size := some (.expr n) } =
          .error (.configError
            ("Invalid batch size " ++ toString n ++ ". The value should be greater than 0"))) ∧
    (∀ raw m b, ModelMeta.build raw = .ok m → m.batch_size = some b → 0 < b) := by
  refine ⟨rfl, ?_, ?_, fun raw m b h hb => (build_ok_inv h).2.2 b hb⟩
  · intro hpos
    have : ¬ n ≤ 0 := by omega
    constructor
    · simp only [_int_validator]
      rw [if_neg this]
    · simp only [_int_validator]
      rw [if_neg this]
  · intro hle
    have hval : _int_validator (.plain n) = .error (.configError
        ("Invalid batch size " ++ toString n ++ ". The value should be greater than 0")) := by
      simp only [_int_validator]
      rw [if_pos hle]
    refine ⟨hval, fun nm => ?_⟩
    have hval2 : _int_validator (.expr n) = _int_validator (.plain n) := rfl
    constructor
    · unfold ModelMeta.build buildRaw kindField cronField startField batchField
      simp [hval, Bind.bind, Except.bind, Except.map, surfaceError]
    · unfold ModelMeta.build buildRaw kindField cronField startField batchField
      simp [hval2, hval, Bind.bind, Except.bind, Except.map, surfaceError]

/-- C7 witness: 5 is accepted identically in both forms; 0 is rejected in
both, also through construction. -/
theorem C7_witness :
    (0 : Int) < 5 ∧
    _int_validator (.plain 5) = .ok 5 ∧ _int_validator (.expr 5) = .ok 5 ∧
    (0 : Int) ≤ 0 ∧
    ModelMeta.build { name := "m", batch_size := some (.plain 0) } =
      .error (.configError
        ("Invalid batch size " ++ toString (0 : Int) ++ ". The value should be greater than 0")) :=
  ⟨by decide,
    ((C7_batch_size_coercion 5).2.1 (by decide)).1,
    ((C7_batch_size_coercion 5).2.1 (by decide)).2,
    by decide,
    (((C7_batch_size_coercion 0).2.2.1 (by decide)).2 "m").1⟩

/-! ## Claim C8: the derived partitioned_by accessor -/

/-- C8: the derived public `partitioned_by` list has no duplicates, is an
order-preserving sublist of time-column-then-explicit-columns (so the
explicit columns keep their insertion order), contains exactly the
elements of that concatenation, puts the kind's time column first when one
exists, and equals exactly `[c]` for an incremental-by-time-range kind
with time column `c` and no explicit list. -/
theorem C8_partitioned_by_derived (m : ModelMeta) :
    m.partitioned_by.Nodup ∧
    m.partitioned_by.Sublist (m.timeColumnList ++ m.partitioned_by_.getD []) ∧
    (∀ x, x ∈ m.partitioned_by ↔ x ∈ m.timeColumnList ++ m.partitioned_by_.getD []) ∧
    (∀ tc, m.time_column = some tc → m.partitioned_by.head? = some tc.column) ∧
    (∀ tc, m.kind = .incrementalByTimeRange (some tc) → m.partitioned_by_ = none →
      m.partitioned_by = [tc.column]) := by
  refine ⟨unique_nodup _, unique_sublist _, fun x => mem_unique x _, ?_, ?_⟩
  · intro tc htc
    unfold ModelMeta.partitioned_by ModelMeta.timeColumnList
    rw [htc]
    simp [unique, uniqueAux]
  · intro tc hk hp
    unfold ModelMeta.partitioned_by ModelMeta.timeColumnList ModelMeta.time_column
    rw [hk, hp]
    simp [unique, uniqueAux]

/-- C8 witness: with time column `ds` and explicit columns
`["a", "ds", "b"]` the accessor is duplicate-free and starts with `ds`;
with no explicit list it is exactly `["ds"]`. -/
theorem C8_witness :
    (ModelMeta.partitioned_by
        { name := "m", kind := .incrementalByTimeRange (some ⟨"ds", none⟩),
          partitioned_by_ := some ["a", "ds", "b"] }).Nodup ∧
    (ModelMeta.partitioned_by
        { name := "m", kind := .incrementalByTimeRange (some ⟨"ds", none⟩),
          partitioned_by_ := some ["a", "ds", "b"] }).head? = some "ds" ∧
    ModelMeta.partitioned_by
        { name := "m", kind := .incrementalByTimeRange (some ⟨"ds", none⟩) } = ["ds"] :=
  ⟨(C8_partitioned_by_derived _).1,
    (C8_partitioned_by_derived
      { name := "m", kind := .incrementalByTimeRange (some ⟨"ds", none⟩),
        partitioned_by_ := some ["a", "ds", "b"] }).2.2.2.1 ⟨"ds", none⟩ rfl,
    (C8_partitioned_by_derived
      { name := "m",
        kind := .incrementalByTimeRange (some ⟨"ds", none⟩) }).2.2.2.2 ⟨"ds", none⟩ rfl rfl⟩

/-! ## Sampling lemmas for the inference engine -/

theorem optionBind_some {α β : Type} {x : Option α} {f : α → Option β} {b : β}
    (h : (x >>= f) = some b) : ∃ a, x = some a ∧ f a = some b := by
  cases x with
  | none => simp [Bind.bind, Option.bind] at h
  | some a => exact ⟨a, rfl, by simpa [Bind.bind, Option.bind] using h⟩

theorem sampleNexts_length (s : CronSched) :
    ∀ (n cur : Nat) (l : List Nat), sampleNexts s cur n = some l → l.length = n := by
  intro n
  induction n with
  | zero =>
    intro cur l h
    simp only [sampleNexts] at h
    cases h
    rfl
  | succ k ih =>
    intro cur l h
    simp only [sampleNexts] at h
    obtain ⟨x, hx, h⟩ := optionBind_some h
    obtain ⟨rest, hrest, h⟩ := optionBind_some h
    cases h
    simp [ih _ _ hrest]

theorem consecDiffs_min_exists (l : List Nat) (h : 2 ≤ l.length) :
    ∃ g, minList? (consecDiffs l) = some g := by
  cases l with
  | nil => simp at h
  | cons a t =>
    cases t with
    | nil => simp at h
    | cons b r => exact ⟨_, rfl⟩

/-! ## Claim C4: interval_unit classifies the minimum sampled gap -/

/-- C4: with a parsed cron, `sample_size` consecutive sampled firing
timestamps and their minimum consecutive gap `g` in seconds,
`interval_unit` returns DAY exactly when `g ≥ 86400`, HOUR exactly when
`3600 ≤ g < 86400`, and MINUTE exactly when `g < 3600`; in particular a
cron firing once per day at the fixed non-midnight hour 13:00 yields DAY
and a cron firing every 15 minutes yields MINUTE. -/
theorem C4_interval_unit_classification (m : ModelMeta) (now n : Nat) (sched : CronSched)
    (samples : List Nat) (g : Nat)
    (h1 : parseCron m.cron = some sched)
    (h2 : sampleNexts sched now n = some samples)
    (h3 : minList? (consecDiffs samples) = some g) :
    (m.interval_unit now n = .ok .DAY ↔ g ≥ 86400) ∧
    (m.interval_unit now n = .ok .HOUR ↔ (g < 86400 ∧ g ≥ 3600)) ∧
    (m.interval_unit now n = .ok .MINUTE ↔ g < 3600) ∧
    ModelMeta.interval_unit { name := "m", cron := "0 13 * * *" } 0 10 = .ok .DAY ∧
    ModelMeta.interval_unit { name := "m", cron := "*/15 * * * *" } 0 10 = .ok .MINUTE := by
  have hmain : m.interval_unit now n =
      (if g ≥ 86400 then .ok .DAY else if g ≥ 3600 then .ok .HOUR else .ok .MINUTE) := by
    simp only [ModelMeta.interval_unit, h1, h2, h3]
  refine ⟨?_, ?_, ?_, by decide, by decide⟩ <;> rw [hmain] <;>
    split_ifs with hA hB <;> simp <;> omega

/-- C4 witness: sampling the daily-at-13:00 cron three times from the
epoch gives gaps of exactly 86400 seconds, classified as DAY. -/
theorem C4_witness :
    parseCron "0 13 * * *" = some ⟨.vals [0], .vals [13], .star, .star, .star⟩ ∧
    sampleNexts ⟨.vals [0], .vals [13], .star, .star, .star⟩ 0 3 =
      some [46800, 133200, 219600] ∧
    minList? (consecDiffs [46800, 133200, 219600]) = some 86400 ∧
    (ModelMeta.interval_unit { name := "m", cron := "0 13 * * *" } 0 3 = .ok .DAY ↔
      86400 ≥ 86400) :=
  ⟨by decide, by decide, by decide,
    (C4_interval_unit_classification { name := "m", cron := "0 13 * * *" } 0 3
      ⟨.vals [0], .vals [13], .star, .star, .star⟩ [46800, 133200, 219600] 86400
      (by decide) (by decide) (by decide)).1⟩

/-! ## Claim C5: normalized_cron returns one of three canonical strings -/

/-- C5: `normalized_cron` maps the inferred unit to exactly its canonical
cron string; any returned string is one of the three canonical ones, so
the empty-string sentinel branch is unreachable (the three-constructor
unit type makes the classification exhaustive). -/
theorem C5_normalized_cron_canonical (m : ModelMeta) (now : Nat) :
    (∀ u, m.interval_unit now 10 = .ok u →
      m.normalized_cron now = .ok (match u with
        | .MINUTE => "* * * * *"
        | .HOUR => "0 * * * *"
        | .DAY => "0 0 * * *")) ∧
    (∀ s, m.normalized_cron now = .ok s →
      s = "* * * * *" ∨ s = "0 * * * *" ∨ s = "0 0 * * *") ∧
    m.normalized_cron now ≠ .ok "" := by
  have key : ∀ u, m.interval_unit now 10 = .ok u →
      m.normalized_cron now = .ok (match u with
        | .MINUTE => "* * * * *"
        | .HOUR => "0 * * * *"
        | .DAY => "0 0 * * *") := by
    intro u hu
    unfold ModelMeta.normalized_cron
    rw [hu]
    cases u <;> rfl
  have canon : ∀ s, m.normalized_cron now = .ok s →
      s = "* * * * *" ∨ s = "0 * * * *" ∨ s = "0 0 * * *" := by
    intro s hok
    cases hu : m.interval_unit now 10 with
    | error e =>
      unfold ModelMeta.normalized_cron at hok
      rw [hu] at hok
      simp [Bind.bind, Except.bind] at hok
    | ok u =>
      rw [key u hu] at hok
      cases u with
      | DAY => right; right; cases hok; rfl
      | HOUR => right; left; cases hok; rfl
      | MINUTE => left; cases hok; rfl
  refine ⟨key, canon, fun h => ?_⟩
  rcases canon "" h with he | he | he <;> exact absurd he (by decide)

/-- C5 witness: the every-15-minutes cron classifies as MINUTE and
normalizes to the canonical minute cron, never the empty sentinel. -/
theorem C5_witness :
    ModelMeta.interval_unit { name := "m", cron := "*/15 * * * *" } 0 10 = .ok .MINUTE ∧
    ModelMeta.normalized_cron { name := "m", cron := "*/15 * * * *" } 0 = .ok "* * * * *" ∧
    ModelMeta.normalized_cron { name := "m", cron := "*/15 * * * *" } 0 ≠ .ok "" :=
  ⟨by decide,
    (C5_normalized_cron_canonical { name := "m", cron := "*/15 * * * *" } 0).1
      .MINUTE (by decide),
    (C5_normalized_cron_canonical { name := "m", cron := "*/15 * * * *" } 0).2.2⟩

/-! ## Claim C10: interval_unit needs at least two samples -/

/-- C10: with a parsed cron and successful sampling, a sample size of at
most one leaves the gap sequence empty, so the call fails with the
uncategorized `min()`-of-empty runtime error and never with a
configuration error; with sample size at least two it always returns one
of the three units. -/
theorem C10_interval_unit_sample_size (m : ModelMeta) (now n : Nat) (sched : CronSched)
    (h1 : parseCron m.cron = some sched)
    (hs : (sampleNexts sched now n).isSome = true) :
    (n ≤ 1 → m.interval_unit now n = .error (.valueError "min() arg is an empty sequence") ∧
      ∀ msg, m.interval_unit now n ≠ .error (.configError msg)) ∧
    (2 ≤ n → ∃ u, m.interval_unit now n = .ok u ∧
      (u = .DAY ∨ u = .HOUR ∨ u = .MINUTE)) := by
  obtain ⟨samples, hsam⟩ := Option.isSome_iff_exists.mp hs
  have hlen := sampleNexts_length sched n now samples hsam
  constructor
  · intro hn
    have hdiff : consecDiffs samples = [] := by
      cases samples with
      | nil => rfl
      | cons a t =>
        cases t with
        | nil => rfl
        | cons b r => simp at hlen; omega
    have herr : m.interval_unit now n =
        .error (.valueError "min() arg is an empty sequence") := by
      simp only [ModelMeta.interval_unit, h1, hsam, hdiff]
      rfl
    exact ⟨herr, fun msg hcfg => by rw [herr] at hcfg; cases hcfg⟩
  · intro hn
    obtain ⟨g, hg⟩ := consecDiffs_min_exists samples (by omega)
    have hmain : m.interval_unit now n =
        (if g ≥ 86400 then .ok .DAY else if g ≥ 3600 then .ok .HOUR else .ok .MINUTE) := by
      simp only [ModelMeta.interval_unit, h1, hsam, hg]
    rw [hmain]
    split_ifs
    · exact ⟨.DAY, rfl, Or.inl rfl⟩
    · exact ⟨.HOUR, rfl, Or.inr (Or.inl rfl)⟩
    · exact ⟨.MINUTE, rfl, Or.inr (Or.inr rfl)⟩

/-- C10 witness: for the every-15-minutes cron, one sample yields the
uncategorized empty-minimum error while ten samples classify. -/
theorem C10_witness :
    parseCron "*/15 * * * *" = some ⟨.vals [0, 15, 30, 45], .star, .star, .star, .star⟩ ∧
    (sampleNexts ⟨.vals [0, 15, 30, 45], .star, .star, .star, .star⟩ 0 1).isSome = true ∧
    ModelMeta.interval_unit { name := "m", cron := "*/15 * * * *" } 0 1 =
      .error (.valueError "min() arg is an empty sequence") ∧
    (∃ u, ModelMeta.interval_unit { name := "m", cron := "*/15 * * * *" } 0 10 = .ok u ∧
      (u = .DAY ∨ u = .HOUR ∨ u = .MINUTE)) :=
  ⟨by decide, by decide,
    ((C10_interval_unit_sample_size { name := "m", cron := "*/15 * * * *" } 0 1
      ⟨.vals [0, 15, 30, 45], .star, .star, .star, .star⟩
      (by decide) (by decide)).1 (by decide)).1,
    (C10_interval_unit_sample_size { name := "m", cron := "*/15 * * * *" } 0 10
      ⟨.vals [0, 15, 30, 45], .star, .star, .star, .star⟩
      (by decide) (by decide)).2 (by decide)⟩

/-! ## Navigator state lemmas -/

/-- The cache invariant: the cursor is absent, or caches exactly the
schedule the navigator creates from the normalized cron (with an arbitrary
current position). -/
def GoodState (m : ModelMeta) (now : Nat) (st : NavState) : Prop :=
  st = none ∨ ∃ c : CronCursor, st = some c ∧ m.cachedSched now = .ok c.sched

theorem croniter_goodState {m : ModelMeta} {now v : Nat} {st : NavState}
    (h : GoodState m now st) :
    m.croniter now v st = (m.cachedSched now).map fun s => ⟨s, v⟩ := by
  rcases h with rfl | ⟨c, rfl, hc⟩
  · unfold ModelMeta.croniter ModelMeta.cachedSched
    cases hn : m.normalized_cron now with
    | error e => simp [hn, Bind.bind, Except.bind, Except.map]
    | ok s =>
      simp only [hn, Bind.bind, Except.bind]
      cases hp : parseCron s with
      | none => simp [hp, Except.map]
      | some sched => simp [hp, Except.map, pure, Except.pure]
  · unfold ModelMeta.croniter
    rw [hc]
    rfl

theorem cachedSched_eval {m : ModelMeta} {now : Nat} {c : String} {sched : CronSched}
    (h1 : m.normalized_cron now = .ok c) (h2 : parseCron c = some sched) :
    m.cachedSched now = .ok sched := by
  unfold ModelMeta.cachedSched
  simp only [h1, Bind.bind, Except.bind, h2]
  rfl

/-- `cron_next` against a good cached state, as a function of the cached
schedule alone. -/
theorem cron_next_cached {m : ModelMeta} {now t : Nat} {s : CronSched}
    (hcs : m.cachedSched now = .ok s) {st : NavState} (h : GoodState m now st) :
    m.cron_next now t st =
      (match getNext s t with
        | some r => (.ok r, some ⟨s, r⟩)
        | none => (.error (.valueError "cron search exhausted"), some ⟨s, t⟩)) := by
  unfold ModelMeta.cron_next
  rw [croniter_goodState h, hcs]
  show (match cursorNext ⟨s, t⟩ with
    | .ok (r, c') => ((.ok r : Except MetaError Nat), some c')
    | .error e => (.error e, some ⟨s, t⟩)) = _
  unfold cursorNext
  cases hg : getNext s t <;> rfl

/-- `cron_prev` against a good cached state. -/
theorem cron_prev_cached {m : ModelMeta} {now t : Nat} {s : CronSched}
    (hcs : m.cachedSched now = .ok s) {st : NavState} (h : GoodState m now st) :
    m.cron_prev now t st =
      (match getPrev s t with
        | some r => (.ok r, some ⟨s, r⟩)
        | none => (.error (.valueError "cron search exhausted"), some ⟨s, t⟩)) := by
  unfold ModelMeta.cron_prev
  rw [croniter_goodState h, hcs]
  show (match cursorPrev ⟨s, t⟩ with
    | .ok (r, c') => ((.ok r : Except MetaError Nat), some c')
    | .error e => (.error e, some ⟨s, t⟩)) = _
  unfold cursorPrev
  cases hg : getPrev s t <;> rfl

/-- `cron_floor` against a good cached state. -/
theorem cron_floor_cached {m : ModelMeta} {now t : Nat} {s : CronSched}
    (hcs : m.cachedSched now = .ok s) {st : NavState} (h : GoodState m now st) :
    m.cron_floor now t st =
      (match getNext s t with
        | none => (.error (.valueError "cron search exhausted"), some ⟨s, t⟩)
        | some r =>
          match getPrev s r with
          | some r2 => (.ok r2, some ⟨s, r2⟩)
          | none => (.error (.valueError "cron search exhausted"), some ⟨s, r⟩)) := by
  unfold ModelMeta.cron_floor
  rw [cron_next_cached hcs h]
  cases hg : getNext s t with
  | none => rfl
  | some r =>
    dsimp only
    have hgr : GoodState m now (some (⟨s, r⟩ : CronCursor)) := Or.inr ⟨⟨s, r⟩, rfl, hcs⟩
    rw [croniter_goodState hgr, hcs]
    dsimp only [Except.map]
    unfold cursorPrev
    dsimp only
    cases hp : getPrev s r <;> rfl

/-- One query's visible result ignores the incoming cached state (as long
as that state satisfies the cache invariant), and the invariant is
preserved. -/
theorem runQuery_goodState (m : ModelMeta) (now : Nat) (q : NavQuery) (t : Nat)
    {st : NavState} (h : GoodState m now st) :
    (runQuery m now q t st).1 = (runQuery m now q t none).1 ∧
    GoodState m now (runQuery m now q t st).2 := by
  have hnone : GoodState m now none := Or.inl rfl
  cases hcs : m.cachedSched now with
  | error e =>
    have hcr : ∀ (v : Nat) (st' : NavState), GoodState m now st' →
        m.croniter now v st' = .error e := by
      intro v st' h'
      rw [croniter_goodState h', hcs]
      rfl
    cases q with
    | next =>
      unfold runQuery ModelMeta.cron_next
      rw [hcr t st h, hcr t none hnone]
      exact ⟨rfl, h⟩
    | prev =>
      unfold runQuery ModelMeta.cron_prev
      rw [hcr t st h, hcr t none hnone]
      exact ⟨rfl, h⟩
    | floor =>
      unfold runQuery ModelMeta.cron_floor ModelMeta.cron_next
      rw [hcr t st h, hcr t none hnone]
      exact ⟨rfl, h⟩
  | ok s =>
    have hgood : ∀ x : Nat, GoodState m now (some (⟨s, x⟩ : CronCursor)) :=
      fun x => Or.inr ⟨⟨s, x⟩, rfl, hcs⟩
    cases q with
    | next =>
      unfold runQuery
      rw [cron_next_cached hcs h, cron_next_cached hcs hnone]
      refine ⟨rfl, ?_⟩
      cases hg : getNext s t <;> simp only <;> exact hgood _
    | prev =>
      unfold runQuery
      rw [cron_prev_cached hcs h, cron_prev_cached hcs hnone]
      refine ⟨rfl, ?_⟩
      cases hg : getPrev s t <;> simp only <;> exact hgood _
    | floor =>
      unfold runQuery
      rw [cron_floor_cached hcs h, cron_floor_cached hcs hnone]
      refine ⟨rfl, ?_⟩
      cases hg : getNext s t with
      | none => exact hgood _
      | some r =>
        simp only
        cases hp : getPrev s r <;> simp only <;> exact hgood _

/-- Running any query sequence from a good state lands in a good state. -/
theorem runSeq_goodState (m : ModelMeta) (now : Nat) (qs : List (NavQuery × Nat)) :
    ∀ st : NavState, GoodState m now st → GoodState m now (runSeq m now qs st) := by
  induction qs with
  | nil => exact fun st h => h
  | cons p rest ih =>
    intro st h
    obtain ⟨q, t⟩ := p
    exact ih _ (runQuery_goodState m now q t h).2

/-! ## Claim C9: each navigator query is stateless for the caller -/

/-- C9: because the cached cursor is re-seeded to the query's timestamp
before every query, the visible result of a query depends only on its own
argument: any two query sequences ending in the same query on the same
timestamp return equal results. -/
theorem C9_navigator_stateless (m : ModelMeta) (now : Nat)
    (qs1 qs2 : List (NavQuery × Nat)) (q : NavQuery) (t : Nat) :
    (runQuery m now q t (runSeq m now qs1 none)).1 =
    (runQuery m now q t (runSeq m now qs2 none)).1 := by
  have g1 := runSeq_goodState m now qs1 none (Or.inl rfl)
  have g2 := runSeq_goodState m now qs2 none (Or.inl rfl)
  rw [(runQuery_goodState m now q t g1).1, (runQuery_goodState m now q t g2).1]

/-! ## Search correctness and the three canonical schedules -/

theorem searchNextFrom_eq (s : CronSched) :
    ∀ fuel a k : Nat, a ≤ k → s.matchesMin k = true →
      (∀ j, a ≤ j → j < k → s.matchesMin j = false) → k < a + fuel →
      searchNextFrom s a fuel = some k := by
  intro fuel
  induction fuel with
  | zero => intro a k h1 _ _ h4; omega
  | succ f ih =>
    intro a k h1 h2 h3 h4
    simp only [searchNextFrom]
    by_cases ha : s.matchesMin a = true
    · have hak : a = k := by
        by_contra hne
        have hj := h3 a (Nat.le_refl a) (by omega)
        rw [ha] at hj
        cases hj
      rw [ha]
      simp [hak]
    · have ha' : s.matchesMin a = false := by
        cases hma : s.matchesMin a
        · rfl
        · exact absurd hma ha
      rw [ha']
      simp only [Bool.false_eq_true, if_false]
      have hne : a ≠ k := by
        intro he
        rw [he] at ha'
        rw [h2] at ha'
        cases ha'
      exact ih (a + 1) k (by omega) h2 (fun j hj1 hj2 => h3 j (by omega) hj2) (by omega)

theorem searchPrevFrom_eq (s : CronSched) :
    ∀ fuel a k : Nat, k ≤ a → s.matchesMin k = true →
      (∀ j, k < j → j ≤ a → s.matchesMin j = false) → a < k + fuel →
      searchPrevFrom s a fuel = some k := by
  intro fuel
  induction fuel with
  | zero => intro a k h1 _ _ h4; omega
  | succ f ih =>
    intro a k h1 h2 h3 h4
    simp only [searchPrevFrom]
    by_cases ha : s.matchesMin a = true
    · have hak : a = k := by
        by_contra hne
        have hj := h3 a (by omega) (Nat.le_refl a)
        rw [ha] at hj
        cases hj
      rw [ha]
      simp [hak]
    · have ha' : s.matchesMin a = false := by
        cases hma : s.matchesMin a
        · rfl
        · exact absurd hma ha
      rw [ha']
      simp only [Bool.false_eq_true, if_false]
      have hne : k ≠ a := by
        intro he
        rw [← he] at ha'
        rw [h2] at ha'
        cases ha'
      rw [if_neg (by omega)]
      exact ih (a - 1) k (by omega) h2 (fun j hj1 hj2 => h3 j hj1 (by omega)) (by omega)

theorem mult_window {P M j : Nat} (_hP : 0 < P) (hM : M % P = 0) (hj : j % P = 0)
    (hMj : M < j) : M + P ≤ j := by
  obtain ⟨a, ha⟩ := Nat.dvd_of_mod_eq_zero hM
  obtain ⟨b, hb⟩ := Nat.dvd_of_mod_eq_zero hj
  subst ha hb
  have hab : a < b := Nat.lt_of_mul_lt_mul_left hMj
  calc P * a + P = P * (a + 1) := by ring
    _ ≤ P * b := mul_le_mul_left' hab P

/-- The firing predicate through a periodicity characterization of the
schedule. -/
theorem isFiring_iff (sched : CronSched) (P : Nat)
    (hmatch : ∀ x, sched.matchesMin x = true ↔ x % P = 0) (y : Nat) :
    isFiring sched y = true ↔ (y % 60 = 0 ∧ (y / 60) % P = 0) := by
  unfold isFiring
  rw [Bool.and_eq_true, decide_eq_true_eq, hmatch]

/-- The all-star schedule of `"* * * * *"`. -/
def minuteSched : CronSched := ⟨.star, .star, .star, .star, .star⟩

/-- The schedule of `"0 * * * *"`. -/
def hourSched : CronSched := ⟨.vals [0], .star, .star, .star, .star⟩

/-- The schedule of `"0 0 * * *"`. -/
def dailySched : CronSched := ⟨.vals [0], .vals [0], .star, .star, .star⟩

theorem minuteSched_matches (x : Nat) : minuteSched.matchesMin x = true ↔ x % 1 = 0 := by
  constructor
  · intro _
    omega
  · intro _
    rfl

theorem hourSched_matches (x : Nat) : hourSched.matchesMin x = true ↔ x % 60 = 0 := by
  simp [hourSched, CronSched.matchesMin, fieldMatch, domDowOk]

theorem dailySched_matches (x : Nat) : dailySched.matchesMin x = true ↔ x % 1440 = 0 := by
  simp only [dailySched, CronSched.matchesMin, fieldMatch, domDowOk]
  simp
  omega

/-- Any string returned by `normalized_cron` is canonical. -/
theorem normalized_ok_canonical {m : ModelMeta} {now : Nat} {s : String}
    (h : m.normalized_cron now = .ok s) :
    s = "* * * * *" ∨ s = "0 * * * *" ∨ s = "0 0 * * *" := by
  unfold ModelMeta.normalized_cron at h
  cases hu : m.interval_unit now 10 with
  | error e =>
    rw [hu] at h
    simp [Bind.bind, Except.bind] at h
  | ok u =>
    rw [hu] at h
    simp only [Bind.bind, Except.bind] at h
    cases u with
    | DAY =>
      simp [pure, Except.pure] at h
      exact Or.inr (Or.inr h.symm)
    | HOUR =>
      simp [pure, Except.pure] at h
      exact Or.inr (Or.inl h.symm)
    | MINUTE =>
      simp [pure, Except.pure] at h
      exact Or.inl h.symm

/-- Evaluation of `cron_floor` over a periodic schedule: the result is the
latest multiple-aligned instant at or below `t`. -/
theorem cron_floor_periodic (m : ModelMeta) (now t : Nat) (sched : CronSched) (P : Nat)
    (hcs : m.cachedSched now = .ok sched)
    (hmatch : ∀ x, sched.matchesMin x = true ↔ x % P = 0)
    (hP : 0 < P) (hPf : P + 1 < cronFuel) :
    (m.cron_floor now t none).1 = .ok (60 * (P * (t / 60 / P))) := by
  have hdm : P * (t / 60 / P) + (t / 60) % P = t / 60 := Nat.div_add_mod (t / 60) P
  have hrlt : (t / 60) % P < P := Nat.mod_lt _ hP
  have hMmod : (P * (t / 60 / P)) % P = 0 := Nat.mul_mod_right P _
  have hkmod : (P * (t / 60 / P) + P) % P = 0 := by
    rw [Nat.add_mod_right]
    exact hMmod
  have hn : searchNextFrom sched (t / 60 + 1) cronFuel = some (P * (t / 60 / P) + P) := by
    apply searchNextFrom_eq
    · omega
    · rw [hmatch]
      exact hkmod
    · intro j hj1 hj2
      cases hmj : sched.matchesMin j
      · rfl
      · exfalso
        have hjm := (hmatch j).mp hmj
        have hw := mult_window hP hMmod hjm (by omega)
        omega
    · omega
  have hgn : getNext sched t = some (60 * (P * (t / 60 / P) + P)) := by
    unfold getNext
    rw [hn]
    rfl
  have ha2 : (60 * (P * (t / 60 / P) + P) - 1) / 60 = P * (t / 60 / P) + P - 1 := by
    omega
  have hp2 : searchPrevFrom sched (P * (t / 60 / P) + P - 1) cronFuel =
      some (P * (t / 60 / P)) := by
    apply searchPrevFrom_eq
    · omega
    · rw [hmatch]
      exact hMmod
    · intro j hj1 hj2
      cases hmj : sched.matchesMin j
      · rfl
      · exfalso
        have hjm := (hmatch j).mp hmj
        have hw := mult_window hP hMmod hjm hj1
        omega
    · omega
  have hgp : getPrev sched (60 * (P * (t / 60 / P) + P)) = some (60 * (P * (t / 60 / P))) := by
    unfold getPrev
    rw [if_neg (by omega), ha2, hp2]
    rfl
  rw [cron_floor_cached hcs (Or.inl rfl), hgn]
  dsimp only
  rw [hgp]

/-! ## Claim C6: cron_floor is the latest firing time at or before `t` -/

/-- C6: for every time-like input `t`, `cron_floor` (which computes
`cron_next(t)`, seeds the cursor there and takes the previous firing time)
returns a firing instant of the normalized cron that equals `t` itself
when `t` lies exactly on a firing boundary and otherwise is the latest
boundary strictly before `t` — the latest firing time `≤ t`. -/
theorem C6_cron_floor_is_latest_firing (m : ModelMeta) (now t : Nat) (c : String)
    (sched : CronSched)
    (h1 : m.normalized_cron now = .ok c) (h2 : parseCron c = some sched) :
    ∃ f, (m.cron_floor now t none).1 = .ok f ∧
      isFiring sched f = true ∧ f ≤ t ∧
      (∀ s', isFiring sched s' = true → s' ≤ t → s' ≤ f) ∧
      (isFiring sched t = true → f = t) ∧
      (isFiring sched t = false → f < t) := by
  rcases normalized_ok_canonical h1 with rfl | rfl | rfl
  · have hps : parseCron "* * * * *" = some minuteSched := by decide
    rw [hps] at h2
    cases h2
    have hcs := cachedSched_eval h1 hps
    have hval := cron_floor_periodic m now t minuteSched 1 hcs minuteSched_matches
      (by decide) (by decide)
    refine ⟨60 * (1 * (t / 60 / 1)), hval, ?_, ?_, ?_, ?_, ?_⟩
    · rw [isFiring_iff minuteSched 1 minuteSched_matches]
      omega
    · omega
    · intro s' hs' hle
      rw [isFiring_iff minuteSched 1 minuteSched_matches] at hs'
      omega
    · intro ht
      rw [isFiring_iff minuteSched 1 minuteSched_matches] at ht
      omega
    · intro ht
      have hneg : ¬ (t % 60 = 0 ∧ t / 60 % 1 = 0) := by
        intro hc
        rw [(isFiring_iff minuteSched 1 minuteSched_matches t).mpr hc] at ht
        cases ht
      omega
  · have hps : parseCron "0 * * * *" = some hourSched := by decide
    rw [hps] at h2
    cases h2
    have hcs := cachedSched_eval h1 hps
    have hval := cron_floor_periodic m now t hourSched 60 hcs hourSched_matches
      (by decide) (by decide)
    refine ⟨60 * (60 * (t / 60 / 60)), hval, ?_, ?_, ?_, ?_, ?_⟩
    · rw [isFiring_iff hourSched 60 hourSched_matches]
      omega
    · omega
    · intro s' hs' hle
      rw [isFiring_iff hourSched 60 hourSched_matches] at hs'
      omega
    · intro ht
      rw [isFiring_iff hourSched 60 hourSched_matches] at ht
      omega
    · intro ht
      have hneg : ¬ (t % 60 = 0 ∧ t / 60 % 60 = 0) := by
        intro hc
        rw [(isFiring_iff hourSched 60 hourSched_matches t).mpr hc] at ht
        cases ht
      omega
  · have hps : parseCron "0 0 * * *" = some dailySched := by decide
    rw [hps] at h2
    cases h2
    have hcs := cachedSched_eval h1 hps
    have hval := cron_floor_periodic m now t dailySched 1440 hcs dailySched_matches
      (by decide) (by decide)
    refine ⟨60 * (1440 * (t / 60 / 1440)), hval, ?_, ?_, ?_, ?_, ?_⟩
    · rw [isFiring_iff dailySched 1440 dailySched_matches]
      omega
    · omega
    · intro s' hs' hle
      rw [isFiring_iff dailySched 1440 dailySched_matches] at hs'
      omega
    · intro ht
      rw [isFiring_iff dailySched 1440 dailySched_matches] at ht
      omega
    · intro ht
      have hneg : ¬ (t % 60 = 0 ∧ t / 60 % 1440 = 0) := by
        intro hc
        rw [(isFiring_iff dailySched 1440 dailySched_matches t).mpr hc] at ht
        cases ht
      omega

/-- C6 witness: for the every-15-minutes model the normalized cron is the
minute cron; at `t = 1234` the floor is the latest minute boundary at or
before `t`. -/
theorem C6_witness :
    ModelMeta.normalized_cron { name := "m", cron := "*/15 * * * *" } 0 = .ok "* * * * *" ∧
    parseCron "* * * * *" = some minuteSched ∧
    (∃ f, (ModelMeta.cron_floor { name := "m", cron := "*/15 * * * *" } 0 1234 none).1 =
        .ok f ∧
      isFiring minuteSched f = true ∧ f ≤ 1234 ∧
      (∀ s', isFiring minuteSched s' = true → s' ≤ 1234 → s' ≤ f) ∧
      (isFiring minuteSched 1234 = true → f = 1234) ∧
      (isFiring minuteSched 1234 = false → f < 1234)) :=
  ⟨by decide, by decide,
    C6_cron_floor_is_latest_firing { name := "m", cron := "*/15 * * * *" } 0 1234
      "* * * * *" minuteSched (by decide) (by decide)⟩

end SqlMesh
